/-
  Verification of the fleet autoscaling controller in
  manager/scaling_manager/server_classes.py (classes Server and
  ServerManagerThread).

  The Python code is shallowly embedded: each Server object becomes a value
  of the `Server` structure; the manager's mutable attributes become the
  `ServerManagerState` structure, passed and returned explicitly.  Network
  effects (health polls, provisioning) are inputs to the functions: a health
  poll outcome is `Option (Bool × Int)` (`some (ready_to_close,
  available_capacity)` on a successful JSON response, `none` on any
  exception), and a provisioning attempt outcome is `Option Server`
  (`none` when `launch_ecs_instance`, `launch_task` or the `Server`
  constructor raises).  Python integers are `Int`.
-/
import Mathlib

namespace ScalingManager

/-- Embedding of the Python `Server` wrapper class: immutable identity
(`task_arn`, `ec2_id`, `address`), the `status` string (set to "RUNNING" in
`__init__` and never written again anywhere in the module), and the mutable
runtime fields `available_capacity` and `ready_to_close`. -/
structure Server where
  task_arn : String
  ec2_id : String
  address : String
  status : String
  available_capacity : Int
  ready_to_close : Bool
deriving Repr, DecidableEq, Inhabited

/-- Embedding of `Server.__init__`: after the running-task waiter and the metadata
lookups succeed, the constructor stores the identity fields and initialises
`status = "RUNNING"`, `available_capacity = 0`, `ready_to_close = False`. -/
def mkServer (task_arn ec2_id address : String) : Server :=
  { task_arn := task_arn, ec2_id := ec2_id, address := address,
    status := "RUNNING", available_capacity := 0, ready_to_close := false }

/-- Outcome of one health poll (`requests.get(url).json()`):
`some (ready_to_close, available_capacity)` on success, `none` on failure. -/
abbrev PollResult := Option (Bool × Int)

/-- Embedding of `Server.update_state`: on a successful poll the reported
`ready_to_close` and `available_capacity` are stored and `True` is
returned; on failure the fields are untouched and `False` is returned. -/
def update_state (s : Server) (poll : PollResult) : Server × Bool :=
  match poll with
  | some (rtc, cap) =>
    ({ s with ready_to_close := rtc, available_capacity := cap }, true)
  | none => (s, false)

/-- Embedding of the mutable attributes of `ServerManagerThread` that the
control loop and the allocator read and write. -/
structure ServerManagerState where
  available_servers : List Server
  standby_servers : List Server
  total_available_capacity : Int
  upscale_margin : Int
  downscale_margin : Int
deriving Repr, DecidableEq

/-- Loop body of `get_available_server_index`: `maxIdx` is the running
first-max index, `i` the next index to examine, `rest` the servers from
index `i` on (the list is not mutated during the scan, so carrying the
current best server `best = servers[maxIdx]` is equivalent to re-indexing).
A later index replaces the best only on strictly greater capacity. -/
def gasiGo (best : Server) (maxIdx i : Nat) : List Server → Nat
  | [] => maxIdx
  | s :: rest =>
    if s.available_capacity > best.available_capacity then
      gasiGo s i (i + 1) rest
    else
      gasiGo best maxIdx (i + 1) rest

/-- Embedding of `ServerManagerThread.get_available_server_index`: linear scan from
index 1 with initial best index 0; returns 0 on an empty list (Python's
`range(1, 0)` is empty and the initial `max_available_server_index = 0` is
returned unchecked). -/
def get_available_server_index (servers : List Server) : Nat :=
  match servers with
  | [] => 0
  | s :: rest => gasiGo s 0 1 rest

/-- Failure modes of `get_available_server`.  The Python code, indexing
`self.available_servers[idx]` on an empty list, raises a plain `IndexError`
(`indexError` here).  The constructor `noCapacityAvailable` models the
typed error named by the specification; it is declared only so that the
behaviour the spec describes can be compared with the behaviour of the
code, and no function in this file produces it. -/
inductive AllocError where
  | indexError
  | noCapacityAvailable
deriving Repr, DecidableEq

/-- Embedding of `ServerManagerThread.get_available_server`: looks up the first-max
index, decrements that server's `available_capacity` in place by 1, and
returns the server.  The in-place mutation of the list cell becomes
`List.set`; out-of-range indexing becomes the `indexError` branch. -/
def get_available_server (st : ServerManagerState) :
    Except AllocError (Server × ServerManagerState) :=
  let j := get_available_server_index st.available_servers
  match st.available_servers[j]? with
  | some s =>
    let s2 := { s with available_capacity := s.available_capacity - 1 }
    Except.ok (s2, { st with available_servers := st.available_servers.set j s2 })
  | none => Except.error AllocError.indexError

/-- Embedding of `ServerManagerThread.add_server`: `launch_ecs_instance()`,
`launch_task(...)` and `Server(task)` together either yield a constructed
server (`some srv`, appended to `available_servers`, returning `True`) or
raise (`none`: the exception is caught, nothing is appended, `False` is
returned). -/
def add_server (st : ServerManagerState) (provision : Option Server) :
    ServerManagerState × Bool :=
  match provision with
  | some srv =>
    ({ st with available_servers := st.available_servers ++ [srv] }, true)
  | none => (st, false)

/-- Poll phase over `available_servers` (first loop of `run`): each server
is `update_state`d with its poll outcome; on failure its
`available_capacity` is forced to 0 and it is appended to the transient
`unresponsive_servers` list; every server's (possibly forced) capacity is
accumulated into `new_total_available_capacity`.  Returns the updated
active list, the accumulated total, and the unresponsive list. -/
def pollActive : List Server → List PollResult → List Server × Int × List Server
  | [], _ => ([], 0, [])
  | s :: rest, polls =>
    let (s1, ok) := update_state s (polls.headD none)
    let s2 := if ok then s1 else { s1 with available_capacity := 0 }
    let (rest2, tot, unresp) := pollActive rest polls.tail
    (s2 :: rest2, s2.available_capacity + tot,
      (if ok then [] else [s2]) ++ unresp)

/-- Poll phase over `standby_servers` (second loop of `run`): each standby
server is `update_state`d; failures are appended to the same transient
unresponsive list, but neither the capacity is forced to 0 nor is any total
accumulated. -/
def pollStandby : List Server → List PollResult → List Server × List Server
  | [], _ => ([], [])
  | s :: rest, polls =>
    let (s1, ok) := update_state s (polls.headD none)
    let (rest2, unresp) := pollStandby rest polls.tail
    (s1 :: rest2, (if ok then [] else [s1]) ++ unresp)

/-- Poll-and-commit phase of one cycle of `run`: poll the active pool,
commit `total_available_capacity := new_total_available_capacity`, poll the
standby pool.  Returns the updated state and the transient unresponsive
list (active failures first, then standby failures, matching append
order). -/
def pollAndCommit (st : ServerManagerState)
    (activePolls standbyPolls : List PollResult) :
    ServerManagerState × List Server :=
  let (active2, tot, unresp1) := pollActive st.available_servers activePolls
  let (standby2, unresp2) := pollStandby st.standby_servers standbyPolls
  ({ st with available_servers := active2, standby_servers := standby2,
             total_available_capacity := tot },
   unresp1 ++ unresp2)

/-- Which branch of the scale decision ran in a cycle. -/
inductive ScaleAction where
  | upscaled
  | downscaled
  | noAction
deriving Repr, DecidableEq

/-- Scale-decision phase of `run`.  If `total_available_capacity <
upscale_margin`: with an empty standby list call `add_server` (one
provisioning attempt, outcome `provision`), otherwise `pop(0)` a standby
server, add its capacity to the total and append it to
`available_servers`.  `elif total_available_capacity > downscale_margin and
len(available_servers) > 1`: pop the server at
`get_available_server_index`, subtract its capacity from the total and
append it to `standby_servers`.  Else do nothing. -/
def scaleStep (st : ServerManagerState) (provision : Option Server) :
    ServerManagerState × ScaleAction :=
  if st.total_available_capacity < st.upscale_margin then
    match st.standby_servers with
    | [] => ((add_server st provision).1, ScaleAction.upscaled)
    | s :: rest =>
      ({ st with
           standby_servers := rest,
           total_available_capacity := st.total_available_capacity + s.available_capacity,
           available_servers := st.available_servers ++ [s] },
       ScaleAction.upscaled)
  else if st.total_available_capacity > st.downscale_margin ∧
          st.available_servers.length > 1 then
    let j := get_available_server_index st.available_servers
    let s := st.available_servers.getD j default
    ({ st with
         available_servers := st.available_servers.eraseIdx j,
         total_available_capacity := st.total_available_capacity - s.available_capacity,
         standby_servers := st.standby_servers ++ [s] },
     ScaleAction.downscaled)
  else (st, ScaleAction.noAction)

/-- Standby-eviction phase of `run`: standby servers with `ready_to_close`
have `remove_server` called on them (termination requested from the
provisioner) and are dropped; the rest are kept in order.  Returns
(remaining standby list, servers whose termination was requested). -/
def evictStandby : List Server → List Server × List Server
  | [] => ([], [])
  | s :: rest =>
    let (rem, term) := evictStandby rest
    if s.ready_to_close then (rem, s :: term) else (s :: rem, term)

/-- Replace the first occurrence of `a` in the list by `b`: the effect of
Python's in-place mutation of the shared object `a` on the one pool that
holds it (object identity coincides with structural equality as long as no
two distinct servers are structurally equal). -/
def replaceFirst : List Server → Server → Server → List Server
  | [], _, _ => []
  | x :: rest, a, b =>
    if x = a then b :: rest else x :: replaceFirst rest a b

/-- Grace-period phase of `run` (after the sleep): every server in the
transient unresponsive list is re-polled via `update_state`.  On success
the shared object's fields are updated in place (hence `replaceFirst` in
whichever pool holds it).  On failure the server is `remove`d from
`available_servers` if present, else from `standby_servers` if present, and
`remove_server` is called on it unconditionally (termination request,
accumulated in `terminated`). -/
def gracePhase (avail standby terminated : List Server) :
    List Server → List PollResult → List Server × List Server × List Server
  | [], _ => (avail, standby, terminated)
  | s :: rest, polls =>
    let (s2, ok) := update_state s (polls.headD none)
    if ok then
      gracePhase (replaceFirst avail s s2) (replaceFirst standby s s2)
        terminated rest polls.tail
    else if s ∈ avail then
      gracePhase (avail.erase s) standby (terminated ++ [s]) rest polls.tail
    else if s ∈ standby then
      gracePhase avail (standby.erase s) (terminated ++ [s]) rest polls.tail
    else
      gracePhase avail standby (terminated ++ [s]) rest polls.tail

/-- One full iteration of the `while True` body of
`ServerManagerThread.run`: poll-and-commit, scale decision, standby
eviction, sleep, grace-period re-poll of the transient unresponsive list.
Returns the next state and the servers whose termination was requested
this cycle. -/
def runCycle (st : ServerManagerState)
    (activePolls standbyPolls : List PollResult)
    (provision : Option Server) (gracePolls : List PollResult) :
    ServerManagerState × List Server :=
  let (st1, unresp) := pollAndCommit st activePolls standbyPolls
  let (st2, _) := scaleStep st1 provision
  let (remaining, term1) := evictStandby st2.standby_servers
  let st3 := { st2 with standby_servers := remaining }
  let (avail4, standby4, term2) :=
    gracePhase st3.available_servers st3.standby_servers [] unresp gracePolls
  ({ st3 with available_servers := avail4, standby_servers := standby4 },
   term1 ++ term2)

/-! ## Concrete sample data used by witnesses and counterexamples -/

/-- A concrete server with a given capacity, for witnesses. -/
def sampleServer (arn : String) (cap : Int) : Server :=
  { task_arn := arn, ec2_id := "i-" ++ arn, address := "10.0.0.1:8000",
    status := "RUNNING", available_capacity := cap, ready_to_close := false }

/-- A manager state with empty pools and margins 2/10. -/
def emptyPoolState : ServerManagerState :=
  { available_servers := [], standby_servers := [],
    total_available_capacity := 0, upscale_margin := 2, downscale_margin := 10 }

/-! ## Helper lemmas -/

theorem getD_zero_eq_headD (polls : List PollResult) :
    polls.getD 0 none = polls.headD none := by
  cases polls <;> rfl

theorem getD_tail_eq_getD_succ (polls : List PollResult) (i : Nat) :
    polls.tail.getD i none = polls.getD (i + 1) none := by
  cases polls <;> rfl

/-- The committed total is the sum of the post-poll capacities of the
active pool. -/
theorem pollActive_total_eq_sum (servers : List Server) (polls : List PollResult) :
    (pollActive servers polls).2.1 =
      ((pollActive servers polls).1.map (fun s => s.available_capacity)).sum := by
  induction servers generalizing polls with
  | nil => simp [pollActive]
  | cons s rest ih => simp [pollActive, ih polls.tail]

theorem pollActive_length (servers : List Server) (polls : List PollResult) :
    (pollActive servers polls).1.length = servers.length := by
  induction servers generalizing polls with
  | nil => rfl
  | cons s rest ih => simp [pollActive, ih polls.tail]

/-- Per-index effect of the active poll phase: a successful poll stores the
reported `ready_to_close` and `available_capacity`; a failed poll forces
the capacity to 0; nothing else about the server changes. -/
theorem pollActive_getD (servers : List Server) (polls : List PollResult)
    (i : Nat) (hi : i < servers.length) :
    (pollActive servers polls).1.getD i default =
      (match polls.getD i none with
       | some (rtc, cap) =>
         { servers.getD i default with
             ready_to_close := rtc, available_capacity := cap }
       | none =>
         { servers.getD i default with available_capacity := 0 }) := by
  induction servers generalizing polls i with
  | nil => simp at hi
  | cons s rest ih =>
    cases i with
    | zero =>
      rw [getD_zero_eq_headD]
      cases hp : polls.head?.getD none with
      | some p => cases p with
        | mk rtc cap => simp [pollActive, update_state, hp]
      | none => simp [pollActive, update_state, hp]
    | succ i =>
      rw [← getD_tail_eq_getD_succ]
      have hi2 : i < rest.length := by simpa using hi
      have := ih polls.tail i hi2
      cases hp : polls.head?.getD none with
      | some p => cases p with
        | mk rtc cap => simpa [pollActive, update_state, hp] using this
      | none => simpa [pollActive, update_state, hp] using this

/-- The committed total, expressed directly from the poll outcomes:
successful polls contribute their reported capacity, failed polls
contribute 0. -/
theorem pollActive_total_reported (servers : List Server) (polls : List PollResult) :
    (pollActive servers polls).2.1 =
      ((List.range servers.length).map (fun i =>
        match polls.getD i none with
        | some (_, cap) => cap
        | none => 0)).sum := by
  induction servers generalizing polls with
  | nil => simp [pollActive]
  | cons s rest ih =>
    simp only [List.length_cons]
    rw [List.range_succ_eq_map]
    simp only [List.map_cons, List.map_map, List.sum_cons]
    have htail : ((List.range rest.length).map (fun i =>
        match polls.tail.getD i none with
        | some (_, cap) => cap
        | none => 0)).sum =
      ((List.range rest.length).map ((fun i =>
        match polls.getD i none with
        | some (_, cap) => cap
        | none => 0) ∘ Nat.succ)).sum := by
      congr 1
      apply List.map_congr_left
      intro i _
      simp [Function.comp, getD_tail_eq_getD_succ]
    rw [← htail, ← ih polls.tail]
    cases hp : polls[0]?.getD none with
    | some p => cases p with
      | mk rtc cap =>
        simp [pollActive, update_state, hp, getD_zero_eq_headD, List.head?_eq_getElem?]
    | none => simp [pollActive, update_state, hp, getD_zero_eq_headD, List.head?_eq_getElem?]

/-- A server whose poll failed ends up (with capacity forced to 0) in the
transient unresponsive list. -/
theorem pollActive_unresp_mem (servers : List Server) (polls : List PollResult)
    (i : Nat) (hi : i < servers.length) (hf : polls.getD i none = none) :
    (pollActive servers polls).1.getD i default ∈ (pollActive servers polls).2.2 := by
  induction servers generalizing polls i with
  | nil => simp at hi
  | cons s rest ih =>
    cases i with
    | zero =>
      have hp : polls.head?.getD none = none := by
        rw [← List.headD_eq_head?_getD, ← getD_zero_eq_headD]; exact hf
      simp [pollActive, update_state, hp]
    | succ i =>
      have hi2 : i < rest.length := by simpa using hi
      have hf2 : polls.tail.getD i none = none := by
        rw [getD_tail_eq_getD_succ]; exact hf
      have := ih polls.tail i hi2 hf2
      cases hp : polls.head?.getD none with
      | some p => cases p with
        | mk rtc cap => simpa [pollActive, update_state, hp] using this
      | none =>
        simp [pollActive, update_state, hp]
        exact Or.inr (by simpa using this)

theorem drop_cons_facts (servers rest2 : List Server) (s : Server) (i : Nat)
    (hdrop : servers.drop i = s :: rest2) :
    i < servers.length ∧ servers.getD i default = s ∧
      servers.drop (i + 1) = rest2 := by
  have hlen := congrArg List.length hdrop
  simp [List.length_drop] at hlen
  have hi : i < servers.length := by omega
  refine ⟨hi, ?_, ?_⟩
  · have h0 : (servers.drop i)[0]? = some s := by rw [hdrop]; simp
    rw [List.getElem?_drop] at h0
    simp only [Nat.add_zero] at h0
    simp [List.getD_eq_getElem?_getD, h0]
  · have h1 : servers.drop (i + 1) = List.drop 1 (servers.drop i) := by
      rw [List.drop_drop]
    rw [h1, hdrop]
    rfl

/-- Loop invariant of the linear scan: starting from a best index whose
capacity dominates all indices below `i` (strictly below the best index),
the scan returns the index of the first occurrence of the maximum
capacity. -/
theorem gasiGo_first_max (rest : List Server) (servers : List Server)
    (best : Server) (maxIdx i : Nat)
    (hdrop : servers.drop i = rest)
    (hmlt : maxIdx < i)
    (hmlen : maxIdx < servers.length)
    (hbest : servers.getD maxIdx default = best)
    (hle : ∀ k, k < i →
      (servers.getD k default).available_capacity ≤ best.available_capacity)
    (hlt : ∀ k, k < maxIdx →
      (servers.getD k default).available_capacity < best.available_capacity) :
    gasiGo best maxIdx i rest < servers.length ∧
    (∀ k, k < servers.length →
      (servers.getD k default).available_capacity ≤
        (servers.getD (gasiGo best maxIdx i rest) default).available_capacity) ∧
    (∀ k, k < gasiGo best maxIdx i rest →
      (servers.getD k default).available_capacity <
        (servers.getD (gasiGo best maxIdx i rest) default).available_capacity) := by
  induction rest generalizing best maxIdx i with
  | nil =>
    have hlen : servers.length ≤ i := by
      have := congrArg List.length hdrop
      simp [List.length_drop] at this
      omega
    simp only [gasiGo]
    refine ⟨hmlen, ?_, ?_⟩
    · intro k hk
      rw [hbest]
      exact hle k (by omega)
    · intro k hk
      rw [hbest]
      exact hlt k hk
  | cons s rest2 ih =>
    obtain ⟨hilen, hgi, hdrop2⟩ := drop_cons_facts servers rest2 s i hdrop
    by_cases hc : s.available_capacity > best.available_capacity
    · have hstep : gasiGo best maxIdx i (s :: rest2) = gasiGo s i (i + 1) rest2 := by
        simp [gasiGo, hc]
      rw [hstep]
      apply ih s i (i + 1) hdrop2 (by omega) hilen hgi
      · intro k hk
        by_cases hki : k < i
        · exact le_of_lt (lt_of_le_of_lt (hle k hki) hc)
        · have hkeq : k = i := by omega
          rw [hkeq, hgi]
      · intro k hk
        exact lt_of_le_of_lt (hle k hk) hc
    · have hstep : gasiGo best maxIdx i (s :: rest2) = gasiGo best maxIdx (i + 1) rest2 := by
        simp [gasiGo, hc]
      rw [hstep]
      apply ih best maxIdx (i + 1) hdrop2 (by omega) hmlen hbest
      · intro k hk
        by_cases hki : k < i
        · exact hle k hki
        · have hkeq : k = i := by omega
          rw [hkeq, hgi]
          omega
      · exact hlt

/-- The function `get_available_server_index` returns an in-range index holding the
maximum capacity, and every earlier index holds strictly less (first
occurrence of the maximum wins ties). -/
theorem gasi_first_max (servers : List Server) (h : servers ≠ []) :
    get_available_server_index servers < servers.length ∧
    (∀ k, k < servers.length →
      (servers.getD k default).available_capacity ≤
        (servers.getD (get_available_server_index servers) default).available_capacity) ∧
    (∀ k, k < get_available_server_index servers →
      (servers.getD k default).available_capacity <
        (servers.getD (get_available_server_index servers) default).available_capacity) := by
  match servers, h with
  | s :: rest, _ =>
    have hmain := gasiGo_first_max rest (s :: rest) s 0 1 rfl (by omega)
      (by simp) rfl
      (fun k hk => by
        have hk0 : k = 0 := by omega
        rw [hk0]
        exact le_rfl)
      (fun k hk => by omega)
    simpa [get_available_server_index] using hmain

/-- All capacities in a server list are non-negative. -/
def capsNonneg (l : List Server) : Prop :=
  ∀ s ∈ l, 0 ≤ s.available_capacity

/-- Every successful poll outcome in the list reports a non-negative
capacity. -/
def pollsNonneg (polls : List PollResult) : Prop :=
  ∀ rtc cap, some (rtc, cap) ∈ polls → 0 ≤ (cap : Int)

theorem pollsNonneg_headD (polls : List PollResult) (hp : pollsNonneg polls)
    (rtc : Bool) (cap : Int) (h : polls.headD none = some (rtc, cap)) :
    0 ≤ cap := by
  cases polls with
  | nil => exact Option.noConfusion h
  | cons p ps =>
    apply hp rtc cap
    rw [← h]
    exact List.mem_cons_self _ _

theorem pollsNonneg_tail (polls : List PollResult) (hp : pollsNonneg polls) :
    pollsNonneg polls.tail := by
  intro rtc cap hmem
  exact hp rtc cap (List.mem_of_mem_tail hmem)

theorem capsNonneg_tail (s : Server) (l : List Server)
    (h : capsNonneg (s :: l)) : capsNonneg l := by
  intro x hx
  exact h x (List.mem_cons_of_mem _ hx)

/-- An in-bounds `getD` is a member of the list. -/
theorem getD_mem (l : List Server) (j : Nat) (h : j < l.length) :
    l.getD j default ∈ l := by
  rw [List.getD_eq_getElem?_getD, List.getElem?_eq_getElem h]
  exact List.getElem_mem h

/-- After the active poll phase every capacity in the pool is
non-negative, provided successful polls report non-negative values (failed
polls force 0 regardless of the previous value). -/
theorem pollActive_nonneg (servers : List Server) (polls : List PollResult)
    (hp : pollsNonneg polls) : capsNonneg (pollActive servers polls).1 := by
  induction servers generalizing polls with
  | nil =>
    intro x hx
    simp [pollActive] at hx
  | cons s rest ih =>
    intro x hx
    cases hh : polls.headD none with
    | none =>
      simp only [pollActive, update_state, hh] at hx
      rcases List.mem_cons.mp hx with h1 | h1
      · rw [h1]
        exact le_refl 0
      · exact ih polls.tail (pollsNonneg_tail polls hp) x h1
    | some p =>
      cases p with
      | mk rtc cap =>
        simp only [pollActive, update_state, hh] at hx
        rcases List.mem_cons.mp hx with h1 | h1
        · rw [h1]
          exact pollsNonneg_headD polls hp rtc cap hh
        · exact ih polls.tail (pollsNonneg_tail polls hp) x h1

/-- After the standby poll phase every capacity is non-negative, provided
it was before and successful polls report non-negative values (failed
standby polls leave the old value in place). -/
theorem pollStandby_nonneg (servers : List Server) (polls : List PollResult)
    (hs : capsNonneg servers) (hp : pollsNonneg polls) :
    capsNonneg (pollStandby servers polls).1 := by
  induction servers generalizing polls with
  | nil =>
    intro x hx
    simp [pollStandby] at hx
  | cons s rest ih =>
    intro x hx
    cases hh : polls.headD none with
    | none =>
      simp only [pollStandby, update_state, hh] at hx
      rcases List.mem_cons.mp hx with h1 | h1
      · rw [h1]
        exact hs s (List.mem_cons_self _ _)
      · exact ih polls.tail (capsNonneg_tail s rest hs) (pollsNonneg_tail polls hp) x h1
    | some p =>
      cases p with
      | mk rtc cap =>
        simp only [pollStandby, update_state, hh] at hx
        rcases List.mem_cons.mp hx with h1 | h1
        · rw [h1]
          exact pollsNonneg_headD polls hp rtc cap hh
        · exact ih polls.tail (capsNonneg_tail s rest hs) (pollsNonneg_tail polls hp) x h1

/-- The scale decision only moves existing servers between the pools (or
appends a provisioned one), so it preserves non-negativity of all
capacities. -/
theorem scaleStep_nonneg (st : ServerManagerState) (provision : Option Server)
    (ha : capsNonneg st.available_servers)
    (hsb : capsNonneg st.standby_servers)
    (hprov : ∀ srv, provision = some srv → 0 ≤ srv.available_capacity) :
    capsNonneg (scaleStep st provision).1.available_servers ∧
    capsNonneg (scaleStep st provision).1.standby_servers := by
  rw [scaleStep]
  by_cases h1 : st.total_available_capacity < st.upscale_margin
  · rw [if_pos h1]
    rcases hst : st.standby_servers with _ | ⟨s0, rest⟩
    · dsimp only
      cases hprovc : provision with
      | none => exact ⟨ha, hst ▸ hsb⟩
      | some srv =>
        dsimp only [add_server]
        constructor
        · intro x hx
          rcases List.mem_append.mp hx with h2 | h2
          · exact ha x h2
          · rw [List.mem_singleton.mp h2]
            exact hprov srv hprovc
        · exact hst ▸ hsb
    · dsimp only
      constructor
      · intro x hx
        rcases List.mem_append.mp hx with h2 | h2
        · exact ha x h2
        · rw [List.mem_singleton.mp h2]
          exact hsb s0 (by rw [hst]; exact List.mem_cons_self _ _)
      · intro x hx
        exact hsb x (by rw [hst]; exact List.mem_cons_of_mem _ hx)
  · rw [if_neg h1]
    by_cases h2 : st.total_available_capacity > st.downscale_margin ∧
        st.available_servers.length > 1
    · rw [if_pos h2]
      constructor
      · intro x hx
        simp only at hx
        exact ha x (List.mem_of_mem_eraseIdx hx)
      · intro x hx
        simp only at hx
        rcases List.mem_append.mp hx with h3 | h3
        · exact hsb x h3
        · rw [List.mem_singleton.mp h3]
          exact ha _ (getD_mem st.available_servers _ (by
            have := h2.2
            have hne : st.available_servers ≠ [] := by
              intro he
              rw [he] at this
              simp at this
            exact (gasi_first_max st.available_servers hne).1))
    · rw [if_neg h2]
      exact ⟨ha, hsb⟩

/-- Standby eviction only drops servers, so it preserves non-negativity. -/
theorem evictStandby_nonneg (l : List Server) (h : capsNonneg l) :
    capsNonneg (evictStandby l).1 := by
  induction l with
  | nil =>
    intro x hx
    simp [evictStandby] at hx
  | cons s rest ih =>
    intro x hx
    by_cases hr : s.ready_to_close
    · simp only [evictStandby, if_pos hr] at hx
      exact ih (capsNonneg_tail s rest h) x hx
    · simp only [evictStandby, if_neg hr] at hx
      rcases List.mem_cons.mp hx with h1 | h1
      · rw [h1]
        exact h s (List.mem_cons_self _ _)
      · exact ih (capsNonneg_tail s rest h) x h1

/-- Membership in a `replaceFirst` result comes from the original list or
is the replacement itself. -/
theorem mem_replaceFirst_or (l : List Server) (a b x : Server)
    (h : x ∈ replaceFirst l a b) : x ∈ l ∨ x = b := by
  induction l with
  | nil => simp [replaceFirst] at h
  | cons y rest ih =>
    by_cases hy : y = a
    · simp only [replaceFirst, if_pos hy] at h
      rcases List.mem_cons.mp h with h1 | h1
      · exact Or.inr h1
      · exact Or.inl (List.mem_cons_of_mem _ h1)
    · simp only [replaceFirst, if_neg hy] at h
      rcases List.mem_cons.mp h with h1 | h1
      · exact Or.inl (by rw [h1]; exact List.mem_cons_self _ _)
      · rcases ih h1 with h2 | h2
        · exact Or.inl (List.mem_cons_of_mem _ h2)
        · exact Or.inr h2

/-- The grace-period phase preserves non-negativity of both pools,
provided successful re-polls report non-negative capacities. -/
theorem gracePhase_nonneg (unresp : List Server)
    (avail standby term : List Server) (polls : List PollResult)
    (ha : capsNonneg avail) (hs : capsNonneg standby)
    (hp : pollsNonneg polls) :
    capsNonneg (gracePhase avail standby term unresp polls).1 ∧
    capsNonneg (gracePhase avail standby term unresp polls).2.1 := by
  induction unresp generalizing avail standby term polls with
  | nil => exact ⟨ha, hs⟩
  | cons s rest ih =>
    cases hh : polls.headD none with
    | none =>
      by_cases h1 : s ∈ avail
      · simp only [gracePhase, update_state, hh, if_pos h1]
        exact ih (avail.erase s) standby (term ++ [s]) polls.tail
          (fun x hx => ha x (List.mem_of_mem_erase hx)) hs
          (pollsNonneg_tail polls hp)
      · by_cases h2 : s ∈ standby
        · simp only [gracePhase, update_state, hh, if_neg h1, if_pos h2]
          exact ih avail (standby.erase s) (term ++ [s]) polls.tail ha
            (fun x hx => hs x (List.mem_of_mem_erase hx))
            (pollsNonneg_tail polls hp)
        · simp only [gracePhase, update_state, hh, if_neg h1, if_neg h2]
          exact ih avail standby (term ++ [s]) polls.tail ha hs
            (pollsNonneg_tail polls hp)
    | some p =>
      cases p with
      | mk rtc cap =>
        simp only [gracePhase, update_state, hh]
        apply ih _ _ term polls.tail _ _ (pollsNonneg_tail polls hp)
        · intro x hx
          rcases mem_replaceFirst_or avail s _ x hx with h1 | h1
          · exact ha x h1
          · rw [h1]
            exact pollsNonneg_headD polls hp rtc cap hh
        · intro x hx
          rcases mem_replaceFirst_or standby s _ x hx with h1 | h1
          · exact hs x h1
          · rw [h1]
            exact pollsNonneg_headD polls hp rtc cap hh

/-- If `a` is in the list, its replacement `b` is in the replaced list. -/
theorem mem_replaceFirst (l : List Server) (a b : Server) (h : a ∈ l) :
    b ∈ replaceFirst l a b := by
  induction l with
  | nil => simp at h
  | cons x rest ih =>
    by_cases hx : x = a
    · simp [replaceFirst, hx]
    · rcases List.mem_cons.mp h with h1 | h1
      · exact absurd h1.symm hx
      · simp only [replaceFirst, if_neg hx]
        exact List.mem_cons_of_mem _ (ih h1)

/-! ## Theorems -/

/-- C1: after the poll-and-commit phase of a cycle the committed
`total_available_capacity` equals the sum of the `available_capacity`
values now stored on the active pool, where every server whose poll
succeeded holds exactly its reported capacity and every server whose poll
failed holds 0 (so the total is the sum over the successfully polled
active servers, failed ones contributing 0); equivalently the total is the
sum of the reported capacities of the successful polls. -/
theorem aggregate_after_poll_commit (st : ServerManagerState)
    (activePolls standbyPolls : List PollResult) :
    ((pollAndCommit st activePolls standbyPolls).1.total_available_capacity =
      (((pollAndCommit st activePolls standbyPolls).1.available_servers).map
        (fun s => s.available_capacity)).sum) ∧
    ((pollAndCommit st activePolls standbyPolls).1.available_servers.length =
      st.available_servers.length) ∧
    ((pollAndCommit st activePolls standbyPolls).1.total_available_capacity =
      ((List.range st.available_servers.length).map (fun i =>
        match activePolls.getD i none with
        | some (_, cap) => cap
        | none => 0)).sum) ∧
    (∀ i, i < st.available_servers.length →
      (activePolls.getD i none = none →
        ((pollAndCommit st activePolls standbyPolls).1.available_servers.getD i
          default).available_capacity = 0) ∧
      (∀ rtc cap, activePolls.getD i none = some (rtc, cap) →
        ((pollAndCommit st activePolls standbyPolls).1.available_servers.getD i
          default).available_capacity = cap)) := by
  refine ⟨?_, ?_, ?_, ?_⟩
  · simpa [pollAndCommit] using
      pollActive_total_eq_sum st.available_servers activePolls
  · simpa [pollAndCommit] using
      pollActive_length st.available_servers activePolls
  · simpa [pollAndCommit] using
      pollActive_total_reported st.available_servers activePolls
  · intro i hi
    have h := pollActive_getD st.available_servers activePolls i hi
    constructor
    · intro hf
      rw [hf] at h
      simpa [pollAndCommit] using congrArg Server.available_capacity h
    · intro rtc cap hs
      rw [hs] at h
      simpa [pollAndCommit] using congrArg Server.available_capacity h

/-- A two-server active pool for the C1 witness. -/
def pollCommitWState : ServerManagerState :=
  { available_servers := [sampleServer "a" 3, sampleServer "b" 4],
    standby_servers := [], total_available_capacity := 7,
    upscale_margin := 2, downscale_margin := 10 }

/-- Witness for C1 at a concrete state: two active servers, the first
polling successfully with capacity 5, the second failing; the committed
total is computed by the theorem and the failed server's capacity is 0. -/
theorem aggregate_after_poll_commit_w :
    (0 : Nat) < pollCommitWState.available_servers.length ∧
    ((pollAndCommit pollCommitWState
        [some (false, 5), none] []).1.total_available_capacity =
      ((List.range pollCommitWState.available_servers.length).map (fun i =>
        match ([some (false, 5), none] : List PollResult).getD i none with
        | some (_, cap) => cap
        | none => 0)).sum) :=
  ⟨by decide,
   (aggregate_after_poll_commit pollCommitWState
     [some (false, 5), none] []).2.2.1⟩

/-- C2: the upscale branch runs iff the pre-decision
`total_available_capacity` is strictly below `upscale_margin`; the
downscale branch runs iff it is strictly above `downscale_margin` and the
active pool has at least 2 servers; and with `upscale_margin <
downscale_margin` the two trigger conditions are mutually exclusive. -/
theorem scale_decision_triggers (st : ServerManagerState) (provision : Option Server)
    (h : st.upscale_margin < st.downscale_margin) :
    ((scaleStep st provision).2 = ScaleAction.upscaled ↔
      st.total_available_capacity < st.upscale_margin) ∧
    ((scaleStep st provision).2 = ScaleAction.downscaled ↔
      (st.total_available_capacity > st.downscale_margin ∧
        2 ≤ st.available_servers.length)) ∧
    ¬(st.total_available_capacity < st.upscale_margin ∧
      (st.total_available_capacity > st.downscale_margin ∧
        2 ≤ st.available_servers.length)) := by
  unfold scaleStep
  by_cases h1 : st.total_available_capacity < st.upscale_margin
  · rcases hs : st.standby_servers with _ | ⟨s, rest⟩ <;>
      simp [h1, hs, add_server] <;> omega
  · by_cases h2 : st.total_available_capacity > st.downscale_margin ∧
        st.available_servers.length > 1
    · simp [h1, h2]
      omega
    · simp [h1, h2]
      omega

/-- Witness for C2 at a concrete state (margins 2/10, total 1, two active
servers): the upscale branch runs. -/
theorem scale_decision_triggers_w :
    (2 : Int) < 10 ∧
    ((scaleStep { available_servers := [sampleServer "a" 1, sampleServer "b" 0],
                  standby_servers := [], total_available_capacity := 1,
                  upscale_margin := 2, downscale_margin := 10 } none).2 =
        ScaleAction.upscaled ↔ (1 : Int) < 2) :=
  ⟨by norm_num,
   (scale_decision_triggers
     { available_servers := [sampleServer "a" 1, sampleServer "b" 0],
       standby_servers := [], total_available_capacity := 1,
       upscale_margin := 2, downscale_margin := 10 } none (by norm_num)).1⟩

/-- C3: on a non-empty active pool, `get_available_server` selects the
server at the first-max index (greatest `available_capacity`, earlier
indices strictly smaller), decrements exactly that server's capacity by 1
in the pool, and returns the decremented server; whenever some active
server has positive capacity, the selected server's pre-decrement capacity
is positive. -/
theorem allocate_picks_first_max (st : ServerManagerState)
    (h : st.available_servers ≠ [])
    (j : Nat) (hj : j = get_available_server_index st.available_servers)
    (orig : Server) (horig : orig = st.available_servers.getD j default)
    (dec : Server)
    (hdec : dec = { orig with available_capacity := orig.available_capacity - 1 }) :
    j < st.available_servers.length ∧
    (∀ k, k < st.available_servers.length →
      (st.available_servers.getD k default).available_capacity ≤
        orig.available_capacity) ∧
    (∀ k, k < j →
      (st.available_servers.getD k default).available_capacity <
        orig.available_capacity) ∧
    get_available_server st =
      Except.ok (dec, { st with available_servers := st.available_servers.set j dec }) ∧
    ((∃ k, k < st.available_servers.length ∧
        0 < (st.available_servers.getD k default).available_capacity) →
      0 < orig.available_capacity) := by
  subst hj
  subst horig
  subst hdec
  obtain ⟨h1, h2, h3⟩ := gasi_first_max st.available_servers h
  refine ⟨h1, h2, h3, ?_, ?_⟩
  · rcases hj2 : st.available_servers[get_available_server_index st.available_servers]? with _ | s
    · rw [List.getElem?_eq_getElem h1] at hj2
      exact Option.noConfusion hj2
    · have hgd : st.available_servers.getD
          (get_available_server_index st.available_servers) default = s := by
        rw [List.getD_eq_getElem?_getD, hj2]
        rfl
      rw [hgd]
      simp only [get_available_server]
      rw [hj2]
  · rintro ⟨k, hk, hpos⟩
    exact lt_of_lt_of_le hpos (h2 k hk)

/-- A three-server active pool (capacities 2, 5, 5) for the allocation
witnesses: the first occurrence of the maximum, index 1, must win. -/
def allocWState : ServerManagerState :=
  { available_servers :=
      [sampleServer "a" 2, sampleServer "b" 5, sampleServer "c" 5],
    standby_servers := [], total_available_capacity := 12,
    upscale_margin := 2, downscale_margin := 100 }

/-- The capacity-4 decrement of the selected sample server. -/
def srvB4 : Server := { sampleServer "b" 5 with available_capacity := 4 }

/-- The three-server pool after one allocation. -/
def allocWStateAfter : ServerManagerState :=
  { allocWState with available_servers :=
      [sampleServer "a" 2, srvB4, sampleServer "c" 5] }

/-- Witness for C3: on capacities [2, 5, 5] index 1 is selected (first
max), its capacity becomes 4, the others are untouched. -/
theorem allocate_picks_first_max_w :
    allocWState.available_servers ≠ [] ∧
    get_available_server_index allocWState.available_servers = 1 ∧
    get_available_server allocWState = Except.ok (srvB4, allocWStateAfter) := by
  refine ⟨by decide, rfl, ?_⟩
  have h := (allocate_picks_first_max allocWState (by decide)
    (get_available_server_index allocWState.available_servers) rfl
    (allocWState.available_servers.getD
      (get_available_server_index allocWState.available_servers) default)
    rfl srvB4 (by rfl)).2.2.2.1
  rw [h]
  rfl

/-- C10: an allocation changes nothing but the selected index's capacity:
the standby pool, the committed total (not decremented by allocation — it
only catches up at the next poll cycle), both margins, the active pool's
length, and every non-selected entry are unchanged; the selected entry
keeps all its other fields (`task_arn`, `address`, `status`,
`ready_to_close`, identity) and only its `available_capacity` drops by
exactly 1, and the returned server is that updated entry. -/
theorem allocate_frame (st : ServerManagerState) (s2 : Server)
    (st2 : ServerManagerState)
    (h : get_available_server st = Except.ok (s2, st2))
    (j : Nat) (hj : j = get_available_server_index st.available_servers)
    (orig : Server) (horig : orig = st.available_servers.getD j default) :
    st2.standby_servers = st.standby_servers ∧
    st2.total_available_capacity = st.total_available_capacity ∧
    st2.upscale_margin = st.upscale_margin ∧
    st2.downscale_margin = st.downscale_margin ∧
    st2.available_servers.length = st.available_servers.length ∧
    (∀ k, k < st.available_servers.length → k ≠ j →
      st2.available_servers.getD k default =
        st.available_servers.getD k default) ∧
    st2.available_servers.getD j default =
      { orig with available_capacity := orig.available_capacity - 1 } ∧
    s2 = { orig with available_capacity := orig.available_capacity - 1 } ∧
    s2.task_arn = orig.task_arn ∧ s2.ec2_id = orig.ec2_id ∧
    s2.address = orig.address ∧ s2.status = orig.status ∧
    s2.ready_to_close = orig.ready_to_close ∧
    s2.available_capacity = orig.available_capacity - 1 := by
  subst hj
  subst horig
  rcases hj2 : st.available_servers[get_available_server_index st.available_servers]? with _ | s
  · rw [get_available_server, hj2] at h
    exact absurd h (by simp)
  · rw [get_available_server, hj2] at h
    simp only [Except.ok.injEq, Prod.mk.injEq] at h
    obtain ⟨hs2, hst2⟩ := h
    have hjlen : get_available_server_index st.available_servers <
        st.available_servers.length := by
      by_contra hge
      rw [List.getElem?_eq_none (by omega)] at hj2
      exact Option.noConfusion hj2
    have hgd : st.available_servers.getD
        (get_available_server_index st.available_servers) default = s := by
      rw [List.getD_eq_getElem?_getD, hj2]
      rfl
    rw [hgd]
    subst hs2
    rw [← hst2]
    refine ⟨rfl, rfl, rfl, rfl, by simp, ?_, ?_, rfl, rfl, rfl, rfl, rfl, rfl, rfl⟩
    · intro k hk hne
      rw [List.getD_eq_getElem?_getD, List.getD_eq_getElem?_getD,
        List.getElem?_eq_getElem (by simpa using hk),
        List.getElem?_eq_getElem hk]
      simp [List.getElem_set_ne (Ne.symm hne)]
    · rw [List.getD_eq_getElem?_getD,
        List.getElem?_eq_getElem (by simpa using hjlen)]
      simp

/-- Witness for C10 on the concrete three-server pool: only index 1
changes, the committed total and the standby pool are untouched. -/
theorem allocate_frame_w :
    get_available_server allocWState = Except.ok (srvB4, allocWStateAfter) ∧
    allocWStateAfter.total_available_capacity =
      allocWState.total_available_capacity := by
  have heq : get_available_server allocWState =
      Except.ok (srvB4, allocWStateAfter) := by rfl
  refine ⟨heq, ?_⟩
  exact (allocate_frame allocWState _ _ heq
    (get_available_server_index allocWState.available_servers) rfl
    (allocWState.available_servers.getD
      (get_available_server_index allocWState.available_servers) default)
    rfl).2.1

/-- C4: when the downscale branch triggers (total above
`downscale_margin`, at least two active servers, upscale not triggered),
the server at the first-max index — greatest capacity, ties broken by
first occurrence — is removed from the active pool and appended to the
standby pool, and its capacity is subtracted from the committed total. -/
theorem downscale_moves_first_max (st : ServerManagerState)
    (provision : Option Server)
    (h1 : ¬ st.total_available_capacity < st.upscale_margin)
    (h2 : st.total_available_capacity > st.downscale_margin)
    (h3 : 2 ≤ st.available_servers.length)
    (j : Nat) (hj : j = get_available_server_index st.available_servers)
    (s : Server) (hs : s = st.available_servers.getD j default) :
    scaleStep st provision =
      ({ st with
           available_servers := st.available_servers.eraseIdx j,
           total_available_capacity := st.total_available_capacity - s.available_capacity,
           standby_servers := st.standby_servers ++ [s] },
       ScaleAction.downscaled) ∧
    (∀ k, k < st.available_servers.length →
      (st.available_servers.getD k default).available_capacity ≤
        s.available_capacity) ∧
    (∀ k, k < j →
      (st.available_servers.getD k default).available_capacity <
        s.available_capacity) := by
  subst hj
  subst hs
  have hne : st.available_servers ≠ [] := by
    intro he
    rw [he] at h3
    simp at h3
  obtain ⟨g1, g2, g3⟩ := gasi_first_max st.available_servers hne
  refine ⟨?_, g2, g3⟩
  rw [scaleStep, if_neg h1, if_pos ⟨h2, by omega⟩]

/-- The concrete downscale scenario of C4: active capacities 8 and 9,
aggregate 17, margins 2/10. -/
def c4State : ServerManagerState :=
  { available_servers := [sampleServer "a" 8, sampleServer "b" 9],
    standby_servers := [], total_available_capacity := 17,
    upscale_margin := 2, downscale_margin := 10 }

/-- Witness for C4: in the concrete scenario the capacity-9 server moves
to standby and the committed total becomes 8. -/
theorem downscale_moves_first_max_w :
    ¬ c4State.total_available_capacity < c4State.upscale_margin ∧
    c4State.total_available_capacity > c4State.downscale_margin ∧
    2 ≤ c4State.available_servers.length ∧
    scaleStep c4State none =
      ({ c4State with
           available_servers := [sampleServer "a" 8],
           total_available_capacity := 8,
           standby_servers := [sampleServer "b" 9] },
       ScaleAction.downscaled) := by
  refine ⟨by decide, by decide, by decide, ?_⟩
  have h := (downscale_moves_first_max c4State none (by decide) (by decide)
    (by decide) (get_available_server_index c4State.available_servers) rfl
    (c4State.available_servers.getD
      (get_available_server_index c4State.available_servers) default) rfl).1
  rw [h]
  rfl

/-- C5: when the upscale branch triggers (total below `upscale_margin`):
with a non-empty standby pool the head standby server is recalled — moved
to the end of the active pool, its capacity added to the total — and the
provisioning outcome is irrelevant (no new server is requested); with an
empty standby pool a single provisioning attempt is made, on success the
new server is appended to the active pool, and on failure the whole state
is unchanged (no partially-constructed server enters either pool).  The
cycle makes exactly one provisioning attempt (`runCycle` consumes one
`provision` outcome), so a failure is not retried within the cycle. -/
theorem upscale_prefers_standby (st : ServerManagerState)
    (provision : Option Server)
    (h : st.total_available_capacity < st.upscale_margin) :
    (∀ s rest, st.standby_servers = s :: rest →
      scaleStep st provision =
        ({ st with
             available_servers := st.available_servers ++ [s],
             standby_servers := rest,
             total_available_capacity :=
               st.total_available_capacity + s.available_capacity },
         ScaleAction.upscaled)) ∧
    (st.standby_servers = [] → ∀ srv, provision = some srv →
      scaleStep st provision =
        ({ st with available_servers := st.available_servers ++ [srv] },
         ScaleAction.upscaled)) ∧
    (st.standby_servers = [] → provision = none →
      scaleStep st provision = (st, ScaleAction.upscaled)) := by
  refine ⟨?_, ?_, ?_⟩
  · intro s rest hsb
    rw [scaleStep, if_pos h, hsb]
  · intro hsb srv hp
    simp only [scaleStep, if_pos h, hsb, hp, add_server]
  · intro hsb hp
    rw [scaleStep, if_pos h, hsb, hp]
    rfl

/-- An upscale-triggering state with one standby server, for the C5
witness. -/
def c5RecallState : ServerManagerState :=
  { available_servers := [sampleServer "a" 1],
    standby_servers := [sampleServer "s" 6], total_available_capacity := 1,
    upscale_margin := 2, downscale_margin := 10 }

/-- Witness for C5: with a standby server present the standby server is
recalled even though a provisioned server was on offer, and with an empty
standby pool a failed provisioning attempt leaves the state unchanged. -/
theorem upscale_prefers_standby_w :
    c5RecallState.total_available_capacity < c5RecallState.upscale_margin ∧
    scaleStep c5RecallState (some (sampleServer "new" 0)) =
      ({ c5RecallState with
           available_servers := [sampleServer "a" 1, sampleServer "s" 6],
           standby_servers := [],
           total_available_capacity := 7 },
       ScaleAction.upscaled) ∧
    scaleStep { c5RecallState with standby_servers := [] } none =
      ({ c5RecallState with standby_servers := [] }, ScaleAction.upscaled) := by
  refine ⟨by decide, ?_, ?_⟩
  · have h := (upscale_prefers_standby c5RecallState
      (some (sampleServer "new" 0)) (by decide)).1 (sampleServer "s" 6) [] rfl
    rw [h]
    rfl
  · exact (upscale_prefers_standby { c5RecallState with standby_servers := [] }
      none (by decide)).2.2 rfl rfl

/-- C6: handling of one server from the transient unresponsive list in the
grace-period phase.  If its re-poll fails it is removed from
`available_servers` when present, else from `standby_servers` when
present, and its termination is requested (appended to the terminated
accumulator) in every case; if its re-poll succeeds, the shared object's
fields are updated in place — the pool entry gets exactly the freshly
reported `ready_to_close` and `available_capacity` and the server stays in
its pool — and no termination is requested for it. -/
theorem grace_period_recheck (avail standby term : List Server) (s : Server)
    (rest : List Server) (polls : List PollResult) :
    (gracePhase avail standby term (s :: rest) (none :: polls) =
      (if s ∈ avail then
        gracePhase (avail.erase s) standby (term ++ [s]) rest polls
       else if s ∈ standby then
        gracePhase avail (standby.erase s) (term ++ [s]) rest polls
       else gracePhase avail standby (term ++ [s]) rest polls)) ∧
    (∀ rtc cap,
      gracePhase avail standby term (s :: rest) (some (rtc, cap) :: polls) =
        gracePhase
          (replaceFirst avail s { s with ready_to_close := rtc, available_capacity := cap })
          (replaceFirst standby s { s with ready_to_close := rtc, available_capacity := cap })
          term rest polls) ∧
    (gracePhase avail standby term [s] [none] =
      (if s ∈ avail then (avail.erase s, standby, term ++ [s])
       else if s ∈ standby then (avail, standby.erase s, term ++ [s])
       else (avail, standby, term ++ [s]))) ∧
    (∀ rtc cap,
      gracePhase avail standby term [s] [some (rtc, cap)] =
        (replaceFirst avail s { s with ready_to_close := rtc, available_capacity := cap },
         replaceFirst standby s { s with ready_to_close := rtc, available_capacity := cap },
         term)) ∧
    (∀ rtc cap, s ∈ avail →
      ({ s with ready_to_close := rtc, available_capacity := cap } : Server) ∈
        (gracePhase avail standby term [s] [some (rtc, cap)]).1) ∧
    (∀ rtc cap, s ∈ standby →
      ({ s with ready_to_close := rtc, available_capacity := cap } : Server) ∈
        (gracePhase avail standby term [s] [some (rtc, cap)]).2.1) := by
  refine ⟨?_, ?_, ?_, ?_, ?_, ?_⟩
  · by_cases h1 : s ∈ avail
    · simp [gracePhase, update_state, h1]
    · by_cases h2 : s ∈ standby <;> simp [gracePhase, update_state, h1, h2]
  · intro rtc cap
    simp [gracePhase, update_state]
  · by_cases h1 : s ∈ avail
    · simp [gracePhase, update_state, h1]
    · by_cases h2 : s ∈ standby <;> simp [gracePhase, update_state, h1, h2]
  · intro rtc cap
    simp [gracePhase, update_state]
  · intro rtc cap hmem
    have he : (gracePhase avail standby term [s] [some (rtc, cap)]).1 =
        replaceFirst avail s { s with ready_to_close := rtc, available_capacity := cap } := by
      simp [gracePhase, update_state]
    rw [he]
    exact mem_replaceFirst avail s _ hmem
  · intro rtc cap hmem
    have he : (gracePhase avail standby term [s] [some (rtc, cap)]).2.1 =
        replaceFirst standby s { s with ready_to_close := rtc, available_capacity := cap } := by
      simp [gracePhase, update_state]
    rw [he]
    exact mem_replaceFirst standby s _ hmem

/-- Witness for C6 on concrete pools: a twice-failing server in the active
pool is removed and terminated; a successfully re-polling server stays in
the active pool carrying the freshly reported values. -/
theorem grace_period_recheck_w :
    gracePhase [sampleServer "u" 3] [sampleServer "v" 1] []
        [sampleServer "u" 3] [none] =
      ([], [sampleServer "v" 1], [sampleServer "u" 3]) ∧
    ({ sampleServer "u" 3 with ready_to_close := true, available_capacity := 7 } :
        Server) ∈
      (gracePhase [sampleServer "u" 3] [sampleServer "v" 1] []
        [sampleServer "u" 3] [some (true, 7)]).1 := by
  constructor
  · have h := (grace_period_recheck [sampleServer "u" 3] [sampleServer "v" 1] []
      (sampleServer "u" 3) [] []).2.2.1
    rw [h, if_pos (by decide : sampleServer "u" 3 ∈ [sampleServer "u" 3])]
    decide
  · exact (grace_period_recheck [sampleServer "u" 3] [sampleServer "v" 1] []
      (sampleServer "u" 3) [] []).2.2.2.2.1 true 7 (by decide)

/-- C7 counterexample: on an empty active pool `get_available_server`
fails with the plain indexing error, not with the typed
`NoCapacityAvailable` the spec names (no such error exists in the code). -/
theorem allocate_empty_not_noCapacityAvailable :
    get_available_server emptyPoolState = Except.error AllocError.indexError ∧
    AllocError.indexError ≠ AllocError.noCapacityAvailable :=
  ⟨rfl, by decide⟩

/-- C7 amended: calling `get_available_server` with an empty
`available_servers` list always fails, but with an unhandled index error
(Python `IndexError` from `self.available_servers[0]`), not with a typed
`NoCapacityAvailable`. -/
theorem allocate_empty_indexError (st : ServerManagerState)
    (h : st.available_servers = []) :
    get_available_server st = Except.error AllocError.indexError := by
  simp [get_available_server, h, get_available_server_index]

/-- Witness for C7's amended theorem at the concrete empty state. -/
theorem allocate_empty_indexError_w :
    get_available_server emptyPoolState = Except.error AllocError.indexError :=
  allocate_empty_indexError emptyPoolState rfl

/-- C9 counterexample: a failed health poll forces the capacity to 0 but
leaves the `status` field untouched — the code never writes any
"Unresponsive" value into the instance's state field (unresponsiveness is
tracked only in the transient list), contradicting the claim that the
state field is set to Unresponsive. -/
theorem failed_poll_status_not_unresponsive :
    (pollActive [sampleServer "u" 7] [none]).1 =
      [{ sampleServer "u" 7 with available_capacity := 0 }] ∧
    ((pollActive [sampleServer "u" 7] [none]).1.getD 0 default).status =
      "RUNNING" ∧
    "RUNNING" ≠ "Unresponsive" := by
  refine ⟨rfl, rfl, by decide⟩

/-- C9 amended: when a poll of an active server fails during the cycle,
that server's capacity is forced to 0 (hence it contributes 0 to the
aggregate), it is recorded in the transient unresponsive list, and its
`status` field is left unchanged (no Unresponsive state is ever written to
the field). -/
theorem failed_poll_forces_zero (servers : List Server) (polls : List PollResult)
    (i : Nat) (hi : i < servers.length) (hf : polls.getD i none = none) :
    ((pollActive servers polls).1.getD i default).available_capacity = 0 ∧
    ((pollActive servers polls).1.getD i default).status =
      (servers.getD i default).status ∧
    (pollActive servers polls).1.getD i default ∈
      (pollActive servers polls).2.2 := by
  have h := pollActive_getD servers polls i hi
  rw [hf] at h
  refine ⟨?_, ?_, pollActive_unresp_mem servers polls i hi hf⟩
  · rw [h]
  · rw [h]

/-- Witness for C9's amended theorem at a concrete one-server pool with a
failed poll. -/
theorem failed_poll_forces_zero_w :
    (0 : Nat) < ([sampleServer "u" 7] : List Server).length ∧
    ((pollActive [sampleServer "u" 7] [none]).1.getD 0
      default).available_capacity = 0 :=
  ⟨by decide,
   (failed_poll_forces_zero [sampleServer "u" 7] [none] 0 (by decide) rfl).1⟩

/-- A one-server pool whose only server has capacity 0, margins 2/10. -/
def zeroCapState : ServerManagerState :=
  { available_servers := [sampleServer "z" 0], standby_servers := [],
    total_available_capacity := 0, upscale_margin := 2, downscale_margin := 10 }

/-- C8 counterexample: allocation does not preserve non-negativity.  On a
pool whose only active server has capacity 0 — a state in which every
capacity is non-negative — `get_available_server` decrements it to -1, so
an instance in the active pool ends up with negative
`available_capacity`. -/
theorem allocation_breaks_nonneg :
    (∀ s ∈ zeroCapState.available_servers, 0 ≤ s.available_capacity) ∧
    get_available_server zeroCapState =
      Except.ok
        ({ sampleServer "z" 0 with available_capacity := -1 },
         { zeroCapState with available_servers :=
             [{ sampleServer "z" 0 with available_capacity := -1 }] }) ∧
    ({ sampleServer "z" 0 with available_capacity := -1 } : Server) ∈
      [({ sampleServer "z" 0 with available_capacity := -1 } : Server)] ∧
    ({ sampleServer "z" 0 with available_capacity := -1 } :
      Server).available_capacity < 0 := by
  refine ⟨by decide, rfl, by decide, by decide⟩

/-- C8 amended: every operation except a capacity-exhausted allocation
keeps all capacities non-negative.  Construction starts at 0; the poll
phases, the scale decision and the standby eviction preserve
non-negativity of both pools (given non-negative reported values and a
non-negatively provisioned server); the grace-period phase preserves it
likewise; and an allocation preserves it provided some active server has
positive capacity (so the selected maximum is positive).  Without that
proviso allocation can produce -1, as the counterexample shows. -/
theorem capacity_nonneg_except_zero_alloc :
    (∀ a e ad, (mkServer a e ad).available_capacity = 0) ∧
    (∀ st activePolls standbyPolls, pollsNonneg activePolls →
      pollsNonneg standbyPolls → capsNonneg st.standby_servers →
      capsNonneg (pollAndCommit st activePolls standbyPolls).1.available_servers ∧
      capsNonneg (pollAndCommit st activePolls standbyPolls).1.standby_servers) ∧
    (∀ st provision, capsNonneg st.available_servers →
      capsNonneg st.standby_servers →
      (∀ srv, provision = some srv → 0 ≤ srv.available_capacity) →
      capsNonneg (scaleStep st provision).1.available_servers ∧
      capsNonneg (scaleStep st provision).1.standby_servers) ∧
    (∀ l, capsNonneg l → capsNonneg (evictStandby l).1) ∧
    (∀ avail standby term unresp polls, capsNonneg avail →
      capsNonneg standby → pollsNonneg polls →
      capsNonneg (gracePhase avail standby term unresp polls).1 ∧
      capsNonneg (gracePhase avail standby term unresp polls).2.1) ∧
    (∀ st s2 st2, get_available_server st = Except.ok (s2, st2) →
      capsNonneg st.available_servers → capsNonneg st.standby_servers →
      (∃ k, k < st.available_servers.length ∧
        0 < (st.available_servers.getD k default).available_capacity) →
      capsNonneg st2.available_servers ∧ capsNonneg st2.standby_servers) := by
  refine ⟨fun a e ad => rfl, ?_, ?_, ?_, ?_, ?_⟩
  · intro st ap sp hap hsp hsb
    constructor
    · simpa [pollAndCommit] using pollActive_nonneg st.available_servers ap hap
    · simpa [pollAndCommit] using pollStandby_nonneg st.standby_servers sp hsb hsp
  · exact fun st provision ha hsb hprov => scaleStep_nonneg st provision ha hsb hprov
  · exact fun l hl => evictStandby_nonneg l hl
  · exact fun avail standby term unresp polls ha hs hp =>
      gracePhase_nonneg unresp avail standby term polls ha hs hp
  · intro st s2 st2 h hac hsbc hex
    rcases hj2 : st.available_servers[get_available_server_index st.available_servers]? with _ | s
    · rw [get_available_server, hj2] at h
      exact absurd h (by simp)
    · rw [get_available_server, hj2] at h
      simp only [Except.ok.injEq, Prod.mk.injEq] at h
      obtain ⟨hs2, hst2⟩ := h
      have hne : st.available_servers ≠ [] := by
        intro he
        rw [he] at hj2
        simp at hj2
      obtain ⟨g1, g2, g3⟩ := gasi_first_max st.available_servers hne
      have hgd : st.available_servers.getD
          (get_available_server_index st.available_servers) default = s := by
        rw [List.getD_eq_getElem?_getD, hj2]
        rfl
      have hpos : 0 < s.available_capacity := by
        obtain ⟨k, hk, hkpos⟩ := hex
        have hle := g2 k hk
        rw [hgd] at hle
        omega
      constructor
      · rw [← hst2]
        intro x hx
        dsimp only at hx
        rcases List.mem_or_eq_of_mem_set hx with h3 | h3
        · exact hac x h3
        · rw [h3]
          dsimp only
          omega
      · rw [← hst2]
        exact hsbc

/-- A one-server pool with positive capacity for the C8 witness. -/
def posState : ServerManagerState :=
  { available_servers := [sampleServer "p" 2], standby_servers := [],
    total_available_capacity := 2, upscale_margin := 2, downscale_margin := 10 }

/-- Witness for C8's amended theorem: construction yields capacity 0, and
allocating from a pool whose server has capacity 2 keeps all capacities
non-negative. -/
theorem capacity_nonneg_except_zero_alloc_w :
    (mkServer "t" "i" "a").available_capacity = 0 ∧
    (capsNonneg
        ({ posState with available_servers :=
            [{ sampleServer "p" 2 with available_capacity := 1 }] } :
          ServerManagerState).available_servers ∧
     capsNonneg
        ({ posState with available_servers :=
            [{ sampleServer "p" 2 with available_capacity := 1 }] } :
          ServerManagerState).standby_servers) := by
  constructor
  · exact capacity_nonneg_except_zero_alloc.1 "t" "i" "a"
  · exact capacity_nonneg_except_zero_alloc.2.2.2.2.2 posState
      ({ sampleServer "p" 2 with available_capacity := 1 })
      ({ posState with available_servers :=
          [{ sampleServer "p" 2 with available_capacity := 1 }] })
      rfl (fun x hx => by
        rcases List.mem_singleton.mp hx with h
        rw [h]
        decide)
      (fun x hx => by simp [posState] at hx)
      ⟨0, by decide, by decide⟩

end ScalingManager
